import Mathlib

/-!
Verification of the hilbert-geometry library (src/src/lib.rs, src/src/normalize.rs).

The library converts 2D vector geometries (geo-types values) into Hilbert-curve
scalar representations and back, with a fixed 7-fractional-digit rounding on
decode, plus a bincode-based binary serializer.

Modelling conventions:
* `f64` arithmetic is modelled over `ℚ` (exact real-valued arithmetic).
* The external `hilbert_2d` crate functions `xy2h_continuous_f64` /
  `h2xy_continuous_f64` (with the fixed `Variant::Hilbert`) are an external
  capability; following the spec they are modelled as injected parameters
  `xy2h : ℚ → ℚ → H` and `h2xy : H → ℚ × ℚ` over an abstract scalar type `H`
  (the payload of the Rust `HilbertPoint(f64)` newtype).
* The external `bincode` facility and its fixed standard `Configuration` are
  likewise injected as a pair of encode/decode functions.
* Rust panics (`unimplemented!`, `Result::unwrap`) are modelled by the
  `Outcome` type: a Rust computation either returns a value (`ok`) or panics
  with a message (`panicked`).  There is no other error channel in
  `encode_geometry` / `decode_geometry`: their Rust return types are plain
  values, not `Result`.
* geo-types containers are modelled structurally: a `Coord` is a pair of
  rationals, a `LineString` a list of coords, a `Polygon` an exterior ring
  plus interior rings.  `Polygon::new` closes its rings exactly as geo-types
  does (appends the first point of a ring when first ≠ last).
-/

namespace HilbertGeo

/-- Outcome of a Rust computation: a returned value, or a panic. -/
inductive Outcome (α : Type) where
  | ok (val : α)
  | panicked (msg : String)
deriving DecidableEq

def Outcome.map {α β : Type} (f : α → β) : Outcome α → Outcome β
  | .ok a => .ok (f a)
  | .panicked m => .panicked m

def Outcome.bind {α β : Type} : Outcome α → (α → Outcome β) → Outcome β
  | .ok a, f => f a
  | .panicked m, _ => .panicked m

/-- Rust `Result::unwrap()` modelled on `Option`: panics on a missing value
(models `g.try_into().unwrap()` where `try_into` yields an `Err` on a
variant mismatch). -/
def Outcome.unwrapResult {α : Type} : Option α → Outcome α
  | some a => .ok a
  | none => .panicked "called Result::unwrap on an Err value"

/-- Collecting an iterator of fallible/panicking items (Rust `collect` on a
`map`ped iterator): the first panic aborts the whole collection. -/
def Outcome.collect {α : Type} : List (Outcome α) → Outcome (List α)
  | [] => .ok []
  | o :: os => o.bind (fun a => (Outcome.collect os).map (fun rest => a :: rest))

/-- geo-types `Coord<f64>`. -/
structure Coord where
  x : ℚ
  y : ℚ
deriving DecidableEq

/-- geo-types `LineString<f64>` (a vector of coordinates; `Point`s wrap
single coordinates one-to-one, so `points()` iteration is coordinate
iteration). -/
abbrev LineString : Type := List Coord

/-- geo-types `LineString::is_closed`: first element equals last element
(vacuously true for the empty line string). -/
def LineString.is_closed (ls : LineString) : Prop := ls.head? = ls.getLast?

instance (ls : LineString) : Decidable (LineString.is_closed ls) := by
  unfold LineString.is_closed
  infer_instance

/-- geo-types `LineString::close`: appends the first coordinate when the ring
is not already closed (the non-closed case implies non-emptiness, so
`head?.toList` is exactly one element there). -/
def LineString.close (ls : LineString) : LineString :=
  if LineString.is_closed ls then ls else ls ++ ls.head?.toList

/-- geo-types `Polygon<f64>`: one exterior ring and a list of interior
rings. -/
structure Polygon where
  exterior : LineString
  interiors : List LineString
deriving DecidableEq

/-- geo-types `Polygon::new`: stores the rings after closing each of them. -/
def Polygon.new (exterior : LineString) (interiors : List LineString) : Polygon :=
  ⟨LineString.close exterior, interiors.map LineString.close⟩

/-- geo-types `Geometry<f64>` restricted to the variants this library
dispatches on; `geometryCollection` stands for the unsupported variants
(`GeometryCollection`, `Line`, `Rect`, `Triangle`), all of which hit the
catch-all `unimplemented!` arm of `encode_geometry`. -/
inductive Geometry where
  | point (pt : Coord)
  | lineString (ls : LineString)
  | polygon (p : Polygon)
  | multiPoint (pts : List Coord)
  | multiLineString (lss : List LineString)
  | multiPolygon (ps : List Polygon)
  | geometryCollection (gs : List Geometry)

/-- geo-types `TryFrom<Geometry> for LineString`. -/
def Geometry.tryIntoLineString : Geometry → Option LineString
  | .lineString ls => some ls
  | _ => none

/-- geo-types `TryFrom<Geometry> for Polygon`. -/
def Geometry.tryIntoPolygon : Geometry → Option Polygon
  | .polygon p => some p
  | _ => none

/-- The `HilbertGeometry` enum (src/src/lib.rs): the Hilbert-encoded mirror of the six
supported geometry kinds, over the abstract curve-scalar type `H`
(`HilbertPoint` payload). -/
inductive HilbertGeometry (H : Type) where
  | point (hp : H)
  | lineString (hps : List H)
  | polygon (rings : List (List H))
  | multiPoint (hps : List H)
  | multiLineString (hpss : List (List H))
  | multiPolygon (hpsss : List (List (List H)))
deriving DecidableEq

/-- The `PRECISION` constant (src/src/lib.rs). -/
def PRECISION : ℕ := 7

/-- Rust `f64::round`: nearest integer, ties away from zero. -/
def rust_round (q : ℚ) : ℤ :=
  if 0 ≤ q then ⌊q + 1/2⌋ else ⌈q - 1/2⌉

/-- Model of `round_decimal` (src/src/lib.rs): `(v * 10^PRECISION).round() / 10^PRECISION`. -/
def round_decimal (v : ℚ) : ℚ :=
  (rust_round (v * 10 ^ PRECISION) : ℚ) / 10 ^ PRECISION

/-- Model of `encode_coord` (src/src/lib.rs): scales the coordinate by `(1/180, 1/90)`
and hands it to the external curve mapping (fixed `Variant::Hilbert` folded
into `xy2h`). -/
def encode_coord {H : Type} (xy2h : ℚ → ℚ → H) (c : Coord) : H :=
  xy2h (c.x / 180) (c.y / 90)

/-- Model of `decode_coord` (src/src/lib.rs): inverse curve mapping, rescaling by
`(180, 90)` and rounding each axis to 7 fractional digits. -/
def decode_coord {H : Type} (h2xy : H → ℚ × ℚ) (p : H) : Coord :=
  ⟨round_decimal ((h2xy p).1 * 180), round_decimal ((h2xy p).2 * 90)⟩

/-- The `make_point` closure of `encode_geometry`. -/
def make_point {H : Type} (xy2h : ℚ → ℚ → H) (pt : Coord) : HilbertGeometry H :=
  .point (encode_coord xy2h pt)

/-- The `make_linestring` closure of `encode_geometry`. -/
def make_linestring {H : Type} (xy2h : ℚ → ℚ → H) (ls : LineString) : HilbertGeometry H :=
  .lineString (ls.map (encode_coord xy2h))

/-- The `make_poly` closure of `encode_geometry`:
`vec![vec![exterior], interiors].concat()`. -/
def make_poly {H : Type} (xy2h : ℚ → ℚ → H) (poly : Polygon) : HilbertGeometry H :=
  let exterior := poly.exterior.map (encode_coord xy2h)
  let interiors := poly.interiors.map (fun ring => ring.map (encode_coord xy2h))
  .polygon (List.flatten [[exterior], interiors])

/-- The `filter_map` closure of the `MultiPoint` arm of `encode_geometry`:
`if let HilbertGeometry::Point(hp) = hg { Some(hp) } else { None }`. -/
def point_payload {H : Type} : HilbertGeometry H → Option H
  | .point hp => some hp
  | _ => none

/-- The `filter_map` closure of the `MultiLineString` arm of
`encode_geometry`. -/
def linestring_payload {H : Type} : HilbertGeometry H → Option (List H)
  | .lineString hps => some hps
  | _ => none

/-- The `filter_map` closure of the `MultiPolygon` arm of
`encode_geometry`. -/
def polygon_payload {H : Type} : HilbertGeometry H → Option (List (List H))
  | .polygon rings => some rings
  | _ => none

/-- Model of `encode_geometry` (src/src/lib.rs).  The catch-all arm is
`unimplemented!("Geometry type not supported")`, i.e. a panic. -/
def encode_geometry {H : Type} (xy2h : ℚ → ℚ → H) : Geometry → Outcome (HilbertGeometry H)
  | .point pt => .ok (make_point xy2h pt)
  | .lineString ls => .ok (make_linestring xy2h ls)
  | .polygon poly => .ok (make_poly xy2h poly)
  | .multiPoint geoms =>
      .ok (.multiPoint ((geoms.map (make_point xy2h)).filterMap point_payload))
  | .multiLineString geoms =>
      .ok (.multiLineString ((geoms.map (make_linestring xy2h)).filterMap linestring_payload))
  | .multiPolygon geoms =>
      .ok (.multiPolygon ((geoms.map (make_poly xy2h)).filterMap polygon_payload))
  | .geometryCollection _ => .panicked "not implemented: Geometry type not supported"

/-- Model of `decode_geometry` (src/src/lib.rs).  The multi branches recursively call
`decode_geometry` on each member wrapped in the single-geometry variant and
downcast the result with `try_into().unwrap()` (`List.attach` only carries
the membership proof used for termination). -/
def decode_geometry {H : Type} (h2xy : H → ℚ × ℚ) : HilbertGeometry H → Outcome Geometry
  | .point hp => .ok (.point (decode_coord h2xy hp))
  | .lineString hps => .ok (.lineString (hps.map (decode_coord h2xy)))
  | .polygon rings =>
      match rings with
      | [] => .ok (.polygon (Polygon.new [] []))
      | r0 :: rest =>
          .ok (.polygon (Polygon.new (r0.map (decode_coord h2xy))
            (rest.map (fun ring => ring.map (decode_coord h2xy)))))
  | .multiPoint hps => .ok (.multiPoint (hps.map (decode_coord h2xy)))
  | .multiLineString hpss =>
      (Outcome.collect (hpss.attach.map (fun ls =>
        (decode_geometry h2xy (.lineString ls.1)).bind (fun g =>
          Outcome.unwrapResult g.tryIntoLineString)))).map Geometry.multiLineString
  | .multiPolygon hpsss =>
      (Outcome.collect (hpsss.attach.map (fun poly =>
        (decode_geometry h2xy (.polygon poly.1)).bind (fun g =>
          Outcome.unwrapResult g.tryIntoPolygon)))).map Geometry.multiPolygon
termination_by hg => sizeOf hg
decreasing_by
  · simp_wf
    have h := List.sizeOf_lt_of_mem ls.2
    omega
  · simp_wf
    have h := List.sizeOf_lt_of_mem poly.2
    omega

/-- Model of `normalize_lon_lat` (src/src/normalize.rs).  Rust `%` on floats is the
truncated remainder (sign of the dividend), modelled by `rust_rem`. -/
def rat_trunc (q : ℚ) : ℤ := if 0 ≤ q then ⌊q⌋ else ⌈q⌉

/-- Rust `a % b` on `f64`: `a - b * trunc(a / b)`. -/
def rust_rem (a b : ℚ) : ℚ := a - b * (rat_trunc (a / b) : ℚ)

def normalize_lon_lat (lon lat : ℚ) : ℚ × ℚ :=
  (rust_rem (lon + 180) 360 / 360, rust_rem (lat + 90) 180 / 180)

/-- Model of `denormalize_lon_lat` (src/src/normalize.rs): note that no rounding is
applied here — the returned pair is exactly `(n1 * 360 - 180, n2 * 180 - 90)`. -/
def denormalize_lon_lat (lon_norm lat_norm : ℚ) : ℚ × ℚ :=
  (lon_norm * 360 - 180, lat_norm * 180 - 90)

/-! ### Precision and well-formedness predicates -/

/-- The coordinate has at most 7 fractional decimal digits on each axis:
scaled by `10^7` it is an integer. -/
def Coord.prec7 (c : Coord) : Prop :=
  (∃ m : ℤ, c.x * 10 ^ PRECISION = m) ∧ (∃ m : ℤ, c.y * 10 ^ PRECISION = m)

def ring_prec7 (r : List Coord) : Prop := ∀ c ∈ r, c.prec7

def Polygon.prec7 (p : Polygon) : Prop :=
  ring_prec7 p.exterior ∧ ∀ r ∈ p.interiors, ring_prec7 r

/-- All coordinates of the geometry have at most 7 fractional decimal
digits. -/
def Geometry.prec7 : Geometry → Prop
  | .point c => c.prec7
  | .lineString l => ring_prec7 l
  | .polygon p => p.prec7
  | .multiPoint l => ring_prec7 l
  | .multiLineString l => ∀ ls ∈ l, ring_prec7 ls
  | .multiPolygon l => ∀ p ∈ l, p.prec7
  | .geometryCollection _ => False

/-- The geometry is one of the six variants `encode_geometry` supports. -/
def Geometry.supported : Geometry → Prop
  | .geometryCollection _ => False
  | _ => True

def Polygon.rings_closed (p : Polygon) : Prop :=
  LineString.is_closed p.exterior ∧ ∀ r ∈ p.interiors, LineString.is_closed r

/-- All polygon rings of the geometry are closed (first point = last point).
Every geo-types polygon satisfies this: `Polygon::new` and every other
constructor close the rings. -/
def Geometry.rings_closed : Geometry → Prop
  | .polygon p => p.rings_closed
  | .multiPolygon l => ∀ p ∈ l, p.rings_closed
  | _ => True

/-- Helper for exhibiting the 7-digit property at concrete coordinates. -/
theorem coord_prec7_of (c : Coord) (mx my : ℤ) (hx : c.x * 10 ^ PRECISION = mx)
    (hy : c.y * 10 ^ PRECISION = my) : Coord.prec7 c :=
  ⟨⟨mx, hx⟩, ⟨my, hy⟩⟩

/-! ### Rounding lemmas -/

theorem rust_round_near (n : ℤ) (r : ℚ) (h : |r - n| < 1/2) : rust_round r = n := by
  have habs := abs_lt.mp h
  have h1 : (n : ℚ) - 1/2 < r := by linarith [habs.1]
  have h2 : r < (n : ℚ) + 1/2 := by linarith [habs.2]
  unfold rust_round
  split
  · rw [Int.floor_eq_iff]
    constructor
    · linarith
    · linarith
  · rw [Int.ceil_eq_iff]
    constructor
    · linarith
    · linarith

theorem rust_round_err (r : ℚ) : |(rust_round r : ℚ) - r| ≤ 1/2 := by
  unfold rust_round
  split
  · have h1 := Int.floor_le (r + 1/2)
    have h2 := Int.lt_floor_add_one (r + 1/2)
    rw [abs_le]
    constructor <;> linarith
  · have h1 := Int.le_ceil (r - 1/2)
    have h2 := Int.ceil_lt_add_one (r - 1/2)
    rw [abs_le]
    constructor <;> linarith

theorem round_decimal_eq_of_near (c v : ℚ) (hc : ∃ m : ℤ, c * 10 ^ PRECISION = m)
    (h : |v - c| < 1 / (2 * 10 ^ PRECISION)) : round_decimal v = c := by
  have hP : (0:ℚ) < 10 ^ PRECISION := by positivity
  obtain ⟨m, hm⟩ := hc
  have hnear : |v * 10 ^ PRECISION - (m : ℚ)| < 1/2 := by
    rw [← hm]
    have heq : v * 10 ^ PRECISION - c * 10 ^ PRECISION = (v - c) * 10 ^ PRECISION := by
      ring
    rw [heq, abs_mul, abs_of_pos hP]
    calc |v - c| * 10 ^ PRECISION
        < (1 / (2 * 10 ^ PRECISION)) * 10 ^ PRECISION := mul_lt_mul_of_pos_right h hP
      _ = 1/2 := by
          field_simp
          ring
  rw [round_decimal, rust_round_near _ _ hnear, ← hm]
  field_simp

theorem round_decimal_err (v : ℚ) : |round_decimal v - v| ≤ 1 / (2 * 10 ^ PRECISION) := by
  have hP : (0:ℚ) < 10 ^ PRECISION := by positivity
  have h := rust_round_err (v * 10 ^ PRECISION)
  rw [round_decimal]
  have heq : (rust_round (v * 10 ^ PRECISION) : ℚ) / 10 ^ PRECISION - v
      = ((rust_round (v * 10 ^ PRECISION) : ℚ) - v * 10 ^ PRECISION) / 10 ^ PRECISION := by
    field_simp
    ring
  rw [heq, abs_div, abs_of_pos hP]
  rw [div_le_div_iff₀ hP (by positivity)]
  calc |(rust_round (v * 10 ^ PRECISION) : ℚ) - v * 10 ^ PRECISION| * (2 * 10 ^ PRECISION)
      ≤ (1/2) * (2 * 10 ^ PRECISION) := by
        apply mul_le_mul_of_nonneg_right h
        positivity
    _ = 1 * 10 ^ PRECISION := by ring

/-- A coordinate structure extensionality helper. -/
theorem Coord.ext {a b : Coord} (hx : a.x = b.x) (hy : a.y = b.y) : a = b := by
  cases a
  cases b
  cases hx
  cases hy
  rfl

/-- Curve round-trip at the coordinate level: if the external curve inverse
is accurate to within `δ` per axis with `3600000000 * δ < 1` (so that the
rescaled error stays strictly below half of the final rounding step), then
`decode_coord ∘ encode_coord` is the identity on coordinates with at most 7
fractional digits. -/
theorem decode_encode_coord {H : Type} (xy2h : ℚ → ℚ → H) (h2xy : H → ℚ × ℚ) (δ : ℚ)
    (hcurve : ∀ x y, |(h2xy (xy2h x y)).1 - x| ≤ δ ∧ |(h2xy (xy2h x y)).2 - y| ≤ δ)
    (hδ : 3600000000 * δ < 1) (c : Coord) (hc : c.prec7) :
    decode_coord h2xy (encode_coord xy2h c) = c := by
  obtain ⟨h1, h2⟩ := hcurve (c.x / 180) (c.y / 90)
  have hδ0 : 0 ≤ δ := le_trans (abs_nonneg _) h1
  have hsmall : (1:ℚ) / (2 * 10 ^ PRECISION) = 1 / 20000000 := by
    norm_num [PRECISION]
  obtain ⟨hcx, hcy⟩ := hc
  have hx : |(h2xy (encode_coord xy2h c)).1 * 180 - c.x| < 1 / (2 * 10 ^ PRECISION) := by
    have heq : (h2xy (encode_coord xy2h c)).1 * 180 - c.x
        = ((h2xy (xy2h (c.x / 180) (c.y / 90))).1 - c.x / 180) * 180 := by
      rw [encode_coord]
      ring
    rw [heq, abs_mul, hsmall]
    have h180 : |(180:ℚ)| = 180 := by norm_num
    rw [h180]
    have hle : |(h2xy (xy2h (c.x / 180) (c.y / 90))).1 - c.x / 180| * 180 ≤ δ * 180 :=
      mul_le_mul_of_nonneg_right h1 (by norm_num)
    linarith
  have hy : |(h2xy (encode_coord xy2h c)).2 * 90 - c.y| < 1 / (2 * 10 ^ PRECISION) := by
    have heq : (h2xy (encode_coord xy2h c)).2 * 90 - c.y
        = ((h2xy (xy2h (c.x / 180) (c.y / 90))).2 - c.y / 90) * 90 := by
      rw [encode_coord]
      ring
    rw [heq, abs_mul, hsmall]
    have h90 : |(90:ℚ)| = 90 := by norm_num
    rw [h90]
    have hle : |(h2xy (xy2h (c.x / 180) (c.y / 90))).2 - c.y / 90| * 90 ≤ δ * 90 :=
      mul_le_mul_of_nonneg_right h2 (by norm_num)
    linarith
  apply Coord.ext
  · exact round_decimal_eq_of_near c.x _ hcx hx
  · exact round_decimal_eq_of_near c.y _ hcy hy

/-! ### List and Outcome helpers -/

theorem map_eq_self_of_mem {α : Type} {l : List α} {f : α → α}
    (h : ∀ a ∈ l, f a = a) : l.map f = l := by
  induction l with
  | nil => rfl
  | cons a t ih =>
    rw [List.map_cons, h a (List.mem_cons_self a t),
      ih (fun b hb => h b (List.mem_cons_of_mem a hb))]

theorem list_attach_map {α β : Type} (l : List α) (f : α → β) :
    (l.attach.map (fun x => f x.1)) = l.map f := by
  simp

theorem outcome_collect_ok_of_mem {α β : Type} (l : List α) (f : α → Outcome β) (g : α → β)
    (h : ∀ a ∈ l, f a = .ok (g a)) :
    Outcome.collect (l.map f) = .ok (l.map g) := by
  induction l with
  | nil => rfl
  | cons a t ih =>
    rw [List.map_cons, List.map_cons, Outcome.collect, h a (List.mem_cons_self a t),
      ih (fun b hb => h b (List.mem_cons_of_mem a hb))]
    rfl

/-! ### Shape lemmas for the geometry transform -/

theorem decode_geometry_point {H : Type} (h2xy : H → ℚ × ℚ) (hp : H) :
    decode_geometry h2xy (.point hp) = .ok (.point (decode_coord h2xy hp)) := by
  rw [decode_geometry]

theorem decode_geometry_lineString {H : Type} (h2xy : H → ℚ × ℚ) (hps : List H) :
    decode_geometry h2xy (.lineString hps) =
      .ok (.lineString (hps.map (decode_coord h2xy))) := by
  rw [decode_geometry]

theorem decode_geometry_polygon_nil {H : Type} (h2xy : H → ℚ × ℚ) :
    decode_geometry h2xy (.polygon ([] : List (List H))) =
      .ok (.polygon (Polygon.new [] [])) := by
  rw [decode_geometry]

theorem decode_geometry_polygon_cons {H : Type} (h2xy : H → ℚ × ℚ)
    (r0 : List H) (rest : List (List H)) :
    decode_geometry h2xy (.polygon (r0 :: rest)) =
      .ok (.polygon (Polygon.new (r0.map (decode_coord h2xy))
        (rest.map (fun ring => ring.map (decode_coord h2xy))))) := by
  rw [decode_geometry]

theorem decode_geometry_multiPoint {H : Type} (h2xy : H → ℚ × ℚ) (hps : List H) :
    decode_geometry h2xy (.multiPoint hps) =
      .ok (.multiPoint (hps.map (decode_coord h2xy))) := by
  rw [decode_geometry]

theorem decode_geometry_multiLineString {H : Type} (h2xy : H → ℚ × ℚ)
    (hpss : List (List H)) :
    decode_geometry h2xy (.multiLineString hpss) =
      (Outcome.collect (hpss.map (fun ls =>
        Outcome.ok (ls.map (decode_coord h2xy))))).map Geometry.multiLineString := by
  rw [decode_geometry]
  congr 1
  rw [← list_attach_map hpss (fun ls => Outcome.ok (ls.map (decode_coord h2xy)))]
  congr 1
  apply List.map_congr_left
  intro ls _
  rw [decode_geometry_lineString]
  rfl

theorem decode_geometry_multiPolygon {H : Type} (h2xy : H → ℚ × ℚ)
    (hpsss : List (List (List H))) :
    decode_geometry h2xy (.multiPolygon hpsss) =
      (Outcome.collect (hpsss.map (fun rings =>
        (decode_geometry h2xy (.polygon rings)).bind (fun g =>
          Outcome.unwrapResult g.tryIntoPolygon)))).map Geometry.multiPolygon := by
  rw [decode_geometry]
  congr 1
  rw [← list_attach_map hpsss (fun rings =>
    (decode_geometry h2xy (.polygon rings)).bind (fun g =>
      Outcome.unwrapResult g.tryIntoPolygon))]

theorem make_poly_eq {H : Type} (xy2h : ℚ → ℚ → H) (p : Polygon) :
    make_poly xy2h p = .polygon ((p.exterior.map (encode_coord xy2h)) ::
      p.interiors.map (fun ring => ring.map (encode_coord xy2h))) := by
  simp [make_poly]

theorem map_make_point_filterMap {H : Type} (xy2h : ℚ → ℚ → H) (pts : List Coord) :
    (pts.map (make_point xy2h)).filterMap point_payload = pts.map (encode_coord xy2h) := by
  induction pts with
  | nil => rfl
  | cons a t ih => simp [make_point, point_payload, ih]

theorem map_make_linestring_filterMap {H : Type} (xy2h : ℚ → ℚ → H) (lss : List LineString) :
    (lss.map (make_linestring xy2h)).filterMap linestring_payload =
      lss.map (fun ls => ls.map (encode_coord xy2h)) := by
  induction lss with
  | nil => rfl
  | cons a t ih => simp [make_linestring, linestring_payload, ih]

theorem map_make_poly_filterMap {H : Type} (xy2h : ℚ → ℚ → H) (ps : List Polygon) :
    (ps.map (make_poly xy2h)).filterMap polygon_payload =
      ps.map (fun p => (p.exterior.map (encode_coord xy2h)) ::
        p.interiors.map (fun ring => ring.map (encode_coord xy2h))) := by
  induction ps with
  | nil => rfl
  | cons a t ih => simp [make_poly_eq, polygon_payload, ih]

theorem encode_geometry_polygon {H : Type} (xy2h : ℚ → ℚ → H) (p : Polygon) :
    encode_geometry xy2h (.polygon p) =
      .ok (.polygon ((p.exterior.map (encode_coord xy2h)) ::
        p.interiors.map (fun ring => ring.map (encode_coord xy2h)))) := by
  simp only [encode_geometry]
  rw [make_poly_eq]

theorem encode_geometry_multiPoint {H : Type} (xy2h : ℚ → ℚ → H) (pts : List Coord) :
    encode_geometry xy2h (.multiPoint pts) =
      .ok (.multiPoint (pts.map (encode_coord xy2h))) := by
  simp only [encode_geometry]
  rw [map_make_point_filterMap]

theorem encode_geometry_multiLineString {H : Type} (xy2h : ℚ → ℚ → H)
    (lss : List LineString) :
    encode_geometry xy2h (.multiLineString lss) =
      .ok (.multiLineString (lss.map (fun ls => ls.map (encode_coord xy2h)))) := by
  simp only [encode_geometry]
  rw [map_make_linestring_filterMap]

theorem encode_geometry_multiPolygon {H : Type} (xy2h : ℚ → ℚ → H) (ps : List Polygon) :
    encode_geometry xy2h (.multiPolygon ps) =
      .ok (.multiPolygon (ps.map (fun p => (p.exterior.map (encode_coord xy2h)) ::
        p.interiors.map (fun ring => ring.map (encode_coord xy2h))))) := by
  simp only [encode_geometry]
  rw [map_make_poly_filterMap]

/-! ### Ring closure lemmas -/

theorem close_of_closed {ls : LineString} (h : LineString.is_closed ls) :
    LineString.close ls = ls := if_pos h

theorem is_closed_map (f : Coord → Coord) {ls : LineString} (h : LineString.is_closed ls) :
    LineString.is_closed (ls.map f) := by
  unfold LineString.is_closed at h ⊢
  rw [List.head?_map, List.getLast?_map, h]

theorem polygon_new_of_closed (ext : LineString) (ints : List LineString)
    (hext : LineString.is_closed ext) (hints : ∀ r ∈ ints, LineString.is_closed r) :
    Polygon.new ext ints = ⟨ext, ints⟩ := by
  unfold Polygon.new
  rw [close_of_closed hext, map_eq_self_of_mem (fun r hr => close_of_closed (hints r hr))]

/-! ### Round-trip helpers -/

theorem ring_roundtrip {H : Type} (xy2h : ℚ → ℚ → H) (h2xy : H → ℚ × ℚ) (δ : ℚ)
    (hcurve : ∀ x y, |(h2xy (xy2h x y)).1 - x| ≤ δ ∧ |(h2xy (xy2h x y)).2 - y| ≤ δ)
    (hδ : 3600000000 * δ < 1) (r : List Coord) (hr : ring_prec7 r) :
    (r.map (encode_coord xy2h)).map (decode_coord h2xy) = r := by
  rw [List.map_map]
  apply map_eq_self_of_mem
  intro c hc
  show decode_coord h2xy (encode_coord xy2h c) = c
  exact decode_encode_coord xy2h h2xy δ hcurve hδ c (hr c hc)

theorem poly_rings_roundtrip {H : Type} (xy2h : ℚ → ℚ → H) (h2xy : H → ℚ × ℚ) (δ : ℚ)
    (hcurve : ∀ x y, |(h2xy (xy2h x y)).1 - x| ≤ δ ∧ |(h2xy (xy2h x y)).2 - y| ≤ δ)
    (hδ : 3600000000 * δ < 1) (p : Polygon)
    (hp : Polygon.prec7 p) (hcl : Polygon.rings_closed p) :
    decode_geometry h2xy (.polygon ((p.exterior.map (encode_coord xy2h)) ::
      p.interiors.map (fun ring => ring.map (encode_coord xy2h)))) = .ok (.polygon p) := by
  rw [decode_geometry_polygon_cons]
  rw [ring_roundtrip xy2h h2xy δ hcurve hδ p.exterior hp.1]
  rw [List.map_map]
  have hints : (p.interiors.map ((fun ring => ring.map (decode_coord h2xy)) ∘
      (fun ring => ring.map (encode_coord xy2h)))) = p.interiors := by
    apply map_eq_self_of_mem
    intro r hr
    show (r.map (encode_coord xy2h)).map (decode_coord h2xy) = r
    exact ring_roundtrip xy2h h2xy δ hcurve hδ r (hp.2 r hr)
  rw [hints]
  rw [polygon_new_of_closed p.exterior p.interiors hcl.1 hcl.2]

/-- Core round-trip: on any supported geometry whose coordinates have at most
7 fractional digits and whose polygon rings are closed, encoding succeeds and
decoding recovers the geometry exactly, provided the external curve inverse
is accurate to strictly within half of the rounding step. -/
theorem roundtrip_aux {H : Type} (xy2h : ℚ → ℚ → H) (h2xy : H → ℚ × ℚ) (δ : ℚ)
    (hcurve : ∀ x y, |(h2xy (xy2h x y)).1 - x| ≤ δ ∧ |(h2xy (xy2h x y)).2 - y| ≤ δ)
    (hδ : 3600000000 * δ < 1) (g : Geometry)
    (hsup : g.supported) (hprec : g.prec7)
    (hclosed : g.rings_closed) :
    ∃ hg, encode_geometry xy2h g = .ok hg ∧ decode_geometry h2xy hg = .ok g := by
  cases g with
  | point c =>
      refine ⟨make_point xy2h c, rfl, ?_⟩
      rw [make_point, decode_geometry_point,
        decode_encode_coord xy2h h2xy δ hcurve hδ c hprec]
  | lineString l =>
      refine ⟨make_linestring xy2h l, rfl, ?_⟩
      rw [make_linestring, decode_geometry_lineString,
        ring_roundtrip xy2h h2xy δ hcurve hδ l hprec]
  | polygon p =>
      refine ⟨_, encode_geometry_polygon xy2h p, ?_⟩
      exact poly_rings_roundtrip xy2h h2xy δ hcurve hδ p hprec hclosed
  | multiPoint pts =>
      refine ⟨_, encode_geometry_multiPoint xy2h pts, ?_⟩
      rw [decode_geometry_multiPoint, ring_roundtrip xy2h h2xy δ hcurve hδ pts hprec]
  | multiLineString lss =>
      refine ⟨_, encode_geometry_multiLineString xy2h lss, ?_⟩
      rw [decode_geometry_multiLineString, List.map_map]
      rw [outcome_collect_ok_of_mem lss _ (fun ls => ls) ?_]
      · simp [Outcome.map]
      · intro ls hls
        show Outcome.ok ((ls.map (encode_coord xy2h)).map (decode_coord h2xy)) = _
        rw [ring_roundtrip xy2h h2xy δ hcurve hδ ls (hprec ls hls)]
  | multiPolygon ps =>
      refine ⟨_, encode_geometry_multiPolygon xy2h ps, ?_⟩
      rw [decode_geometry_multiPolygon, List.map_map]
      rw [outcome_collect_ok_of_mem ps _ (fun p => p) ?_]
      · simp [Outcome.map]
      · intro p hp
        show (decode_geometry h2xy (.polygon ((p.exterior.map (encode_coord xy2h)) ::
          p.interiors.map (fun ring => ring.map (encode_coord xy2h))))).bind
            (fun g => Outcome.unwrapResult g.tryIntoPolygon) = Outcome.ok p
        rw [poly_rings_roundtrip xy2h h2xy δ hcurve hδ p (hprec p hp) (hclosed p hp)]
        rfl
  | geometryCollection gs => exact hsup.elim

/-! ### Binary codec adapter (HilbertSerializer) -/

/-- The external bincode facility pinned to one fixed `Configuration` (the
Rust code always uses `config::standard()`): an injected dependency pair, as
the spec prescribes for the generic structured-binary capability.  `B` is the
byte-sequence type, `E1`/`E2` the encode/decode error types. -/
structure BincodeConfig (H B E1 E2 : Type) where
  encode_to_vec : HilbertGeometry H → Except E1 B
  decode_from_slice : B → Except E2 (HilbertGeometry H)

/-- Method `HilbertGeometry::encode_bincode`: `bincode::encode_to_vec(self, *config)`. -/
def HilbertGeometry.encode_bincode {H B E1 E2 : Type} (hg : HilbertGeometry H)
    (config : BincodeConfig H B E1 E2) : Except E1 B :=
  config.encode_to_vec hg

/-- Method `HilbertGeometry::decode_bincode`: `bincode::decode_from_slice(data, *config)`
(the ignored second tuple component — bytes read — is dropped). -/
def HilbertGeometry.decode_bincode {H B E1 E2 : Type} (data : B)
    (config : BincodeConfig H B E1 E2) : Except E2 (HilbertGeometry H) :=
  config.decode_from_slice data

/-- The `HilbertSerializer` struct (src/src/lib.rs): holds the fixed configuration. -/
structure HilbertSerializer (H B E1 E2 : Type) where
  config : BincodeConfig H B E1 E2

/-- Method `HilbertSerializer::encode`: geometry transform (which may panic on
unsupported variants) followed by the binary encode. -/
def HilbertSerializer.encode {H B E1 E2 : Type} (s : HilbertSerializer H B E1 E2)
    (xy2h : ℚ → ℚ → H) (geom : Geometry) : Outcome (Except E1 B) :=
  (encode_geometry xy2h geom).map (fun hg => hg.encode_bincode s.config)

/-- Method `HilbertSerializer::decode`: binary decode (typed failure propagated with
`?`) followed by the inverse geometry transform. -/
def HilbertSerializer.decode {H B E1 E2 : Type} (s : HilbertSerializer H B E1 E2)
    (h2xy : H → ℚ × ℚ) (data : B) : Outcome (Except E2 Geometry) :=
  match HilbertGeometry.decode_bincode data s.config with
  | .error e => .ok (.error e)
  | .ok hg => (decode_geometry h2xy hg).map Except.ok

/-! ### Per-axis approximation (for the precision-loss bound) -/

/-- Per-axis distance strictly below `ε`. -/
def coord_approx (ε : ℚ) (c d : Coord) : Prop := |d.x - c.x| < ε ∧ |d.y - c.y| < ε

def ring_approx (ε : ℚ) (r s : List Coord) : Prop := List.Forall₂ (coord_approx ε) r s

def polygon_approx (ε : ℚ) (p q : Polygon) : Prop :=
  ring_approx ε p.exterior q.exterior ∧
    List.Forall₂ (ring_approx ε) p.interiors q.interiors

/-- Structural correspondence: same variant, same shape, every coordinate
within `ε` per axis. -/
def geometry_approx (ε : ℚ) : Geometry → Geometry → Prop
  | .point c, .point d => coord_approx ε c d
  | .lineString l, .lineString m => ring_approx ε l m
  | .polygon p, .polygon q => polygon_approx ε p q
  | .multiPoint l, .multiPoint m => ring_approx ε l m
  | .multiLineString l, .multiLineString m => List.Forall₂ (ring_approx ε) l m
  | .multiPolygon l, .multiPolygon m => List.Forall₂ (polygon_approx ε) l m
  | _, _ => False

theorem forall2_map_self {α β : Type} (R : α → β → Prop) (l : List α) (f : α → β)
    (h : ∀ a ∈ l, R a (f a)) : List.Forall₂ R l (l.map f) := by
  induction l with
  | nil => exact List.Forall₂.nil
  | cons a t ih =>
      exact List.Forall₂.cons (h a (List.mem_cons_self a t))
        (ih (fun b hb => h b (List.mem_cons_of_mem a hb)))

/-- Coordinate-level precision bound: with a curve inverse accurate to within
`δ` per axis and `3600000000 * δ < 19`, the decoded coordinate differs from
the original by strictly less than `1e-6` per axis. -/
theorem coord_approx_decode_encode {H : Type} (xy2h : ℚ → ℚ → H) (h2xy : H → ℚ × ℚ)
    (δ : ℚ) (hcurve : ∀ x y, |(h2xy (xy2h x y)).1 - x| ≤ δ ∧ |(h2xy (xy2h x y)).2 - y| ≤ δ)
    (hδ : 3600000000 * δ < 19) (c : Coord) :
    coord_approx (1/1000000) c (decode_coord h2xy (encode_coord xy2h c)) := by
  obtain ⟨h1, h2⟩ := hcurve (c.x / 180) (c.y / 90)
  have hδ0 : 0 ≤ δ := le_trans (abs_nonneg _) h1
  have hsmall : (1:ℚ) / (2 * 10 ^ PRECISION) = 1 / 20000000 := by
    norm_num [PRECISION]
  constructor
  · show |round_decimal ((h2xy (encode_coord xy2h c)).1 * 180) - c.x| < 1/1000000
    have herr := round_decimal_err ((h2xy (encode_coord xy2h c)).1 * 180)
    rw [hsmall] at herr
    have hband : |(h2xy (encode_coord xy2h c)).1 * 180 - c.x| ≤ δ * 180 := by
      have heq : (h2xy (encode_coord xy2h c)).1 * 180 - c.x
          = ((h2xy (xy2h (c.x / 180) (c.y / 90))).1 - c.x / 180) * 180 := by
        rw [encode_coord]
        ring
      rw [heq, abs_mul]
      have h180 : |(180:ℚ)| = 180 := by norm_num
      rw [h180]
      exact mul_le_mul_of_nonneg_right h1 (by norm_num)
    have htri := abs_sub_le (round_decimal ((h2xy (encode_coord xy2h c)).1 * 180))
      ((h2xy (encode_coord xy2h c)).1 * 180) c.x
    linarith
  · show |round_decimal ((h2xy (encode_coord xy2h c)).2 * 90) - c.y| < 1/1000000
    have herr := round_decimal_err ((h2xy (encode_coord xy2h c)).2 * 90)
    rw [hsmall] at herr
    have hband : |(h2xy (encode_coord xy2h c)).2 * 90 - c.y| ≤ δ * 90 := by
      have heq : (h2xy (encode_coord xy2h c)).2 * 90 - c.y
          = ((h2xy (xy2h (c.x / 180) (c.y / 90))).2 - c.y / 90) * 90 := by
        rw [encode_coord]
        ring
      rw [heq, abs_mul]
      have h90 : |(90:ℚ)| = 90 := by norm_num
      rw [h90]
      exact mul_le_mul_of_nonneg_right h2 (by norm_num)
    have htri := abs_sub_le (round_decimal ((h2xy (encode_coord xy2h c)).2 * 90))
      ((h2xy (encode_coord xy2h c)).2 * 90) c.y
    linarith

/-- The Polygon arm of `decode_geometry` as a total function on ring lists. -/
def decode_poly_rings {H : Type} (h2xy : H → ℚ × ℚ) : List (List H) → Polygon
  | [] => Polygon.new [] []
  | r0 :: rest =>
      Polygon.new (r0.map (decode_coord h2xy))
        (rest.map (fun ring => ring.map (decode_coord h2xy)))

theorem decode_geometry_polygon_eq {H : Type} (h2xy : H → ℚ × ℚ)
    (rings : List (List H)) :
    decode_geometry h2xy (.polygon rings) = .ok (.polygon (decode_poly_rings h2xy rings)) := by
  cases rings with
  | nil => rw [decode_geometry_polygon_nil]; rfl
  | cons r0 rest => rw [decode_geometry_polygon_cons]; rfl

/-- Decoding the encoded rings of a closed-ring polygon yields exactly the
coordinatewise image under `decode_coord ∘ encode_coord`. -/
theorem poly_rings_decode {H : Type} (xy2h : ℚ → ℚ → H) (h2xy : H → ℚ × ℚ)
    (p : Polygon) (hcl : Polygon.rings_closed p) :
    decode_geometry h2xy (.polygon ((p.exterior.map (encode_coord xy2h)) ::
      p.interiors.map (fun ring => ring.map (encode_coord xy2h)))) =
      .ok (.polygon ⟨p.exterior.map (fun c => decode_coord h2xy (encode_coord xy2h c)),
        p.interiors.map (fun r =>
          r.map (fun c => decode_coord h2xy (encode_coord xy2h c)))⟩) := by
  rw [decode_geometry_polygon_cons, List.map_map, List.map_map]
  have hext : LineString.is_closed (p.exterior.map
      (decode_coord h2xy ∘ encode_coord xy2h)) :=
    is_closed_map _ hcl.1
  have hints : ∀ r ∈ p.interiors.map ((fun ring => ring.map (decode_coord h2xy)) ∘
      (fun ring => ring.map (encode_coord xy2h))), LineString.is_closed r := by
    intro r hr
    rw [List.mem_map] at hr
    obtain ⟨r0, hr0, hr0eq⟩ := hr
    have : r = r0.map (decode_coord h2xy ∘ encode_coord xy2h) := by
      rw [← hr0eq]
      simp [List.map_map]
    rw [this]
    exact is_closed_map _ (hcl.2 r0 hr0)
  rw [polygon_new_of_closed _ _ hext hints]
  simp [Function.comp, List.map_map]

/-! ### Wrap-based normalization lemmas -/

theorem rust_rem_div_bounds (a b : ℚ) (ha : 0 ≤ a) (hb : 0 < b) :
    0 ≤ rust_rem a b / b ∧ rust_rem a b / b < 1 := by
  unfold rust_rem rat_trunc
  rw [if_pos (div_nonneg ha hb.le)]
  have key : (a - b * (⌊a / b⌋ : ℚ)) / b = Int.fract (a / b) := by
    rw [Int.fract]
    field_simp
  rw [key]
  exact ⟨Int.fract_nonneg _, Int.fract_lt_one _⟩

theorem rust_rem_of_lt (a b : ℚ) (ha : 0 ≤ a) (hab : a < b) (hb : 0 < b) :
    rust_rem a b = a := by
  unfold rust_rem rat_trunc
  rw [if_pos (div_nonneg ha hb.le)]
  have hfl : ⌊a / b⌋ = 0 := by
    rw [Int.floor_eq_zero_iff]
    exact Set.mem_Ico.mpr ⟨div_nonneg ha hb.le, (div_lt_one hb).mpr hab⟩
  rw [hfl]
  push_cast
  ring

/-! ## Claims -/

/-- C1: For every supported geometry `g` (Point, LineString, Polygon,
MultiPoint, MultiLineString, MultiPolygon) whose coordinates all have at most
7 fractional decimal digits — and, as holds for every constructible geo-types
polygon, whose polygon rings are closed — `decode_geometry (encode_geometry g)`
equals `g` exactly.  The external curve mapping is any injected pair whose
inverse error per axis is at most `δ` with `3600000000 * δ < 1` (strictly
within half of the 7-digit rounding step after rescaling by 180), which is
the accuracy assumption the spec states on the external Hilbert mapping. -/
theorem encode_decode_roundtrip_exact {H : Type} (xy2h : ℚ → ℚ → H) (h2xy : H → ℚ × ℚ)
    (δ : ℚ)
    (hcurve : ∀ x y, |(h2xy (xy2h x y)).1 - x| ≤ δ ∧ |(h2xy (xy2h x y)).2 - y| ≤ δ)
    (hδ : 3600000000 * δ < 1) (g : Geometry)
    (hsup : g.supported) (hprec : g.prec7)
    (hclosed : g.rings_closed) :
    ∃ hg, encode_geometry xy2h g = .ok hg ∧ decode_geometry h2xy hg = .ok g :=
  roundtrip_aux xy2h h2xy δ hcurve hδ g hsup hprec hclosed

/-- Witness for C1: the identity curve codec at the point (0.5, 0.5). -/
theorem encode_decode_roundtrip_exact_witness :
    ∃ hg, encode_geometry (fun x y => ((x, y) : ℚ × ℚ)) (Geometry.point ⟨1/2, 1/2⟩) = .ok hg ∧
      decode_geometry (fun p : ℚ × ℚ => p) hg = .ok (Geometry.point ⟨1/2, 1/2⟩) :=
  encode_decode_roundtrip_exact (fun x y => (x, y)) (fun p => p) 0
    (fun x y => by constructor <;> simp) (by norm_num) (Geometry.point ⟨1/2, 1/2⟩)
    trivial
    (coord_prec7_of ⟨1/2, 1/2⟩ 5000000 5000000 (by norm_num [PRECISION])
      (by norm_num [PRECISION]))
    trivial

/-- C2: For every such geometry, the full `HilbertSerializer` pipeline
(geometry transform composed with the binary codec) succeeds and is the
identity: encoding yields bytes and decoding those bytes yields `g` exactly,
assuming the injected bincode facility round-trips `HilbertGeometry` values
(the contract the spec states for the external structured-binary capability). -/
theorem hilbert_serializer_roundtrip {H B E F : Type} (xy2h : ℚ → ℚ → H)
    (h2xy : H → ℚ × ℚ) (δ : ℚ) (s : HilbertSerializer H B E F)
    (hbin : ∀ hg : HilbertGeometry H, ∃ b, s.config.encode_to_vec hg = .ok b ∧
      s.config.decode_from_slice b = .ok hg)
    (hcurve : ∀ x y, |(h2xy (xy2h x y)).1 - x| ≤ δ ∧ |(h2xy (xy2h x y)).2 - y| ≤ δ)
    (hδ : 3600000000 * δ < 1) (g : Geometry)
    (hsup : g.supported) (hprec : g.prec7)
    (hclosed : g.rings_closed) :
    ∃ b : B, s.encode xy2h g = .ok (.ok b) ∧ s.decode h2xy b = .ok (.ok g) := by
  obtain ⟨hg, henc, hdec⟩ := roundtrip_aux xy2h h2xy δ hcurve hδ g hsup hprec hclosed
  obtain ⟨b, hb1, hb2⟩ := hbin hg
  refine ⟨b, ?_, ?_⟩
  · rw [HilbertSerializer.encode, henc]
    simp [Outcome.map, HilbertGeometry.encode_bincode, hb1]
  · rw [HilbertSerializer.decode, HilbertGeometry.decode_bincode, hb2]
    show (decode_geometry h2xy hg).map Except.ok = Outcome.ok (Except.ok g)
    rw [hdec]
    rfl

/-- Witness for C2: identity curve codec and identity binary codec at the
point (0.5, 0.5). -/
theorem hilbert_serializer_roundtrip_witness :
    ∃ b : HilbertGeometry (ℚ × ℚ),
      HilbertSerializer.encode
        (⟨⟨Except.ok, Except.ok⟩⟩ :
          HilbertSerializer (ℚ × ℚ) (HilbertGeometry (ℚ × ℚ)) Unit Unit)
        (fun x y => ((x, y) : ℚ × ℚ)) (Geometry.point ⟨1/2, 1/2⟩) = .ok (.ok b) ∧
      HilbertSerializer.decode
        (⟨⟨Except.ok, Except.ok⟩⟩ :
          HilbertSerializer (ℚ × ℚ) (HilbertGeometry (ℚ × ℚ)) Unit Unit)
        (fun p : ℚ × ℚ => p) b = .ok (.ok (Geometry.point ⟨1/2, 1/2⟩)) :=
  hilbert_serializer_roundtrip (fun x y => (x, y)) (fun p => p) 0
    ⟨⟨Except.ok, Except.ok⟩⟩ (fun hg => ⟨hg, rfl, rfl⟩)
    (fun x y => by constructor <;> simp) (by norm_num) (Geometry.point ⟨1/2, 1/2⟩)
    trivial
    (coord_prec7_of ⟨1/2, 1/2⟩ 5000000 5000000 (by norm_num [PRECISION])
      (by norm_num [PRECISION]))
    trivial

/-- C3: For every input polygon, `encode_geometry` produces a
`HilbertGeometry.Polygon` whose ring sequence is exactly the encoded exterior
ring at index 0 followed by the encoded interior rings in their original
order, with the vertex order of each ring preserved by the per-vertex map; no
other structural transformation is applied. -/
theorem encode_polygon_ring_order {H : Type} (xy2h : ℚ → ℚ → H) (p : Polygon) :
    encode_geometry xy2h (.polygon p) =
      .ok (.polygon ((p.exterior.map (encode_coord xy2h)) ::
        p.interiors.map (fun ring => ring.map (encode_coord xy2h)))) :=
  encode_geometry_polygon xy2h p

/-- C4: Decoding a `HilbertGeometry.Polygon` with an empty ring sequence
returns (it does not panic) a polygon with an empty exterior ring and no
interior rings. -/
theorem decode_empty_polygon {H : Type} (h2xy : H → ℚ × ℚ) :
    decode_geometry h2xy (.polygon ([] : List (List H))) =
      .ok (.polygon ⟨[], []⟩) := by
  rw [decode_geometry_polygon_nil]
  rfl

/-- C5 counterexample: `denormalize_lon_lat` applies no 7-digit rounding.
At normalized input `(1e-9, 0)` the undone normalization is
`(1e-9 * 360 - 180, 0 * 180 - 90) = (-179.99999964, -90)`, whose first
component has more than 7 fractional digits; had the claimed
`round(v * 1e7) / 1e7` been applied before returning, the result would have
been `(-179.9999996, -90)`.  The returned pair is the unrounded one. -/
theorem denormalize_no_rounding_cex :
    denormalize_lon_lat (1/1000000000) 0 ≠
      (round_decimal ((1/1000000000) * 360 - 180), round_decimal (0 * 180 - 90)) := by
  have hround : round_decimal ((1/1000000000 : ℚ) * 360 - 180) = -1799999996/10000000 := by
    have hP : ((10:ℚ) ^ PRECISION) = 10000000 := by norm_num [PRECISION]
    have harg : ((1/1000000000 : ℚ) * 360 - 180) * 10 ^ PRECISION = -8999999982/5 := by
      rw [hP]
      norm_num
    have hneg : ¬ (0 ≤ ((1/1000000000 : ℚ) * 360 - 180) * 10 ^ PRECISION) := by
      rw [harg]
      norm_num
    have hceil : ⌈((1/1000000000 : ℚ) * 360 - 180) * 10 ^ PRECISION - 1/2⌉
        = (-1799999996 : ℤ) := by
      rw [Int.ceil_eq_iff, harg]
      constructor <;> norm_num
    rw [round_decimal, rust_round, if_neg hneg, hceil, hP]
    norm_num
  intro hcontra
  have h1 := congrArg Prod.fst hcontra
  simp only [denormalize_lon_lat] at h1
  rw [hround] at h1
  norm_num at h1

/-- C5 amended: `denormalize_lon_lat` is the exact algebraic inverse of
`normalize_lon_lat` on the canonical ranges `[-180, 180) × [-90, 90)`, with
no rounding applied; the 7-fractional-digit rounding `round(v * 1e7) / 1e7`
belongs to `decode_coord` (via `round_decimal`) in the main pipeline, not to
`denormalize_lon_lat`. -/
theorem denormalize_inverse_on_canonical_range (lon lat : ℚ)
    (h1 : -180 ≤ lon) (h2 : lon < 180) (h3 : -90 ≤ lat) (h4 : lat < 90) :
    denormalize_lon_lat (normalize_lon_lat lon lat).1 (normalize_lon_lat lon lat).2
      = (lon, lat) := by
  unfold normalize_lon_lat denormalize_lon_lat
  rw [rust_rem_of_lt (lon + 180) 360 (by linarith) (by linarith) (by norm_num)]
  rw [rust_rem_of_lt (lat + 90) 180 (by linarith) (by linarith) (by norm_num)]
  have e1 : (lon + 180) / 360 * 360 - 180 = lon := by
    field_simp
  have e2 : (lat + 90) / 180 * 180 - 90 = lat := by
    field_simp
  rw [e1, e2]

/-- Witness for C5 (amended) at `(-44, -22)`. -/
theorem denormalize_inverse_witness :
    denormalize_lon_lat (normalize_lon_lat (-44) (-22)).1
      (normalize_lon_lat (-44) (-22)).2 = (-44, -22) :=
  denormalize_inverse_on_canonical_range (-44) (-22)
    (by norm_num) (by norm_num) (by norm_num) (by norm_num)

/-- C6 counterexample: `normalize_lon_lat` does not fold every out-of-range
input back into `[0, 1]`: Rust `%` takes the sign of the dividend, so at
`lon = -200` the wrapped longitude is `(-20) % 360 = -20` and the first
component is `-1/18 < 0`. -/
theorem normalize_out_of_range_cex :
    ¬ (0 ≤ (normalize_lon_lat (-200) 0).1) := by
  have hval : (normalize_lon_lat (-200) 0).1 = -1/18 := by
    have hneg : ¬ (0 ≤ ((-200 : ℚ) + 180) / 360) := by norm_num
    have hceil : ⌈((-200 : ℚ) + 180) / 360⌉ = 0 := by
      rw [Int.ceil_eq_iff]
      constructor <;> norm_num
    simp only [normalize_lon_lat, rust_rem, rat_trunc]
    rw [if_neg hneg, hceil]
    norm_num
  rw [hval]
  norm_num

/-- C6 amended: `normalize_lon_lat` computes
`((lon + 180) rem 360) / 360` and `((lat + 90) rem 180) / 180` where `rem`
is the Rust truncated remainder (sign of the dividend), and the result lies in
`[0, 1)` (hence in the claimed `[0, 1]`) whenever `lon ≥ -180` and
`lat ≥ -90` — inputs above the canonical upper bounds are folded back, but
inputs below `-180` / `-90` produce negative outputs. -/
theorem normalize_formula_and_range (lon lat : ℚ)
    (hlon : -180 ≤ lon) (hlat : -90 ≤ lat) :
    normalize_lon_lat lon lat =
      (rust_rem (lon + 180) 360 / 360, rust_rem (lat + 90) 180 / 180) ∧
    0 ≤ (normalize_lon_lat lon lat).1 ∧ (normalize_lon_lat lon lat).1 < 1 ∧
    0 ≤ (normalize_lon_lat lon lat).2 ∧ (normalize_lon_lat lon lat).2 < 1 := by
  have b1 := rust_rem_div_bounds (lon + 180) 360 (by linarith) (by norm_num)
  have b2 := rust_rem_div_bounds (lat + 90) 180 (by linarith) (by norm_num)
  exact ⟨rfl, b1.1, b1.2, b2.1, b2.2⟩

/-- Witness for C6 (amended) at `(400, 100)`, both beyond the canonical
upper bounds and folded back into `[0, 1)`. -/
theorem normalize_formula_and_range_witness :
    normalize_lon_lat 400 100 =
      (rust_rem (400 + 180) 360 / 360, rust_rem (100 + 90) 180 / 180) ∧
    0 ≤ (normalize_lon_lat 400 100).1 ∧ (normalize_lon_lat 400 100).1 < 1 ∧
    0 ≤ (normalize_lon_lat 400 100).2 ∧ (normalize_lon_lat 400 100).2 < 1 :=
  normalize_formula_and_range 400 100 (by norm_num) (by norm_num)

/-- C7 counterexample: on an unsupported variant (a geometry collection),
`encode_geometry` does not return an `UnsupportedGeometryKind` error value —
its Rust return type is a plain `HilbertGeometry` with no error channel —
it panics via `unimplemented!("Geometry type not supported")`.  In the model
the outcome is `panicked`, not `ok`, and no typed error constructor exists. -/
theorem encode_unsupported_cex :
    encode_geometry (fun x y => ((x, y) : ℚ × ℚ)) (Geometry.geometryCollection []) =
      Outcome.panicked "not implemented: Geometry type not supported" := rfl

/-- C7 amended: for every geometry variant outside the six supported kinds,
`encode_geometry` fails fast by panicking with the `unimplemented!` message
"Geometry type not supported" — it never silently degrades or produces
partial output — but the failure is a panic, not a typed result returned to
the caller. -/
theorem encode_unsupported_panics {H : Type} (xy2h : ℚ → ℚ → H) (gs : List Geometry) :
    encode_geometry xy2h (.geometryCollection gs) =
      .panicked "not implemented: Geometry type not supported" := rfl

/-- C8: For every MultiPoint, MultiLineString and MultiPolygon input with
members `[m0, ..., mk]`, `encode_geometry` produces the corresponding multi
variant whose member list is exactly the member-wise encoding in the same
order (hence exactly `k+1` members, none reordered, deduplicated or
dropped), and decoding that result yields the original members in the same
order, each individually round-tripped (under the 7-digit-precision and
closed-rings conditions on the members and the curve-accuracy assumption). -/
theorem multi_member_order_roundtrip {H : Type} (xy2h : ℚ → ℚ → H) (h2xy : H → ℚ × ℚ)
    (δ : ℚ)
    (hcurve : ∀ x y, |(h2xy (xy2h x y)).1 - x| ≤ δ ∧ |(h2xy (xy2h x y)).2 - y| ≤ δ)
    (hδ : 3600000000 * δ < 1)
    (pts : List Coord) (lss : List LineString) (ps : List Polygon)
    (hpts : ring_prec7 pts) (hlss : ∀ ls ∈ lss, ring_prec7 ls)
    (hps : ∀ p ∈ ps, Polygon.prec7 p) (hpscl : ∀ p ∈ ps, Polygon.rings_closed p) :
    encode_geometry xy2h (.multiPoint pts) =
      .ok (.multiPoint (pts.map (encode_coord xy2h)))
    ∧ encode_geometry xy2h (.multiLineString lss) =
      .ok (.multiLineString (lss.map (fun ls => ls.map (encode_coord xy2h))))
    ∧ encode_geometry xy2h (.multiPolygon ps) =
      .ok (.multiPolygon (ps.map (fun p => (p.exterior.map (encode_coord xy2h)) ::
        p.interiors.map (fun ring => ring.map (encode_coord xy2h)))))
    ∧ (encode_geometry xy2h (.multiPoint pts)).bind (decode_geometry h2xy) =
      .ok (.multiPoint pts)
    ∧ (encode_geometry xy2h (.multiLineString lss)).bind (decode_geometry h2xy) =
      .ok (.multiLineString lss)
    ∧ (encode_geometry xy2h (.multiPolygon ps)).bind (decode_geometry h2xy) =
      .ok (.multiPolygon ps) := by
  obtain ⟨hg1, he1, hd1⟩ :=
    roundtrip_aux xy2h h2xy δ hcurve hδ (.multiPoint pts) trivial hpts trivial
  obtain ⟨hg2, he2, hd2⟩ :=
    roundtrip_aux xy2h h2xy δ hcurve hδ (.multiLineString lss) trivial hlss trivial
  obtain ⟨hg3, he3, hd3⟩ :=
    roundtrip_aux xy2h h2xy δ hcurve hδ (.multiPolygon ps) trivial hps hpscl
  refine ⟨encode_geometry_multiPoint xy2h pts, encode_geometry_multiLineString xy2h lss,
    encode_geometry_multiPolygon xy2h ps, ?_, ?_, ?_⟩
  · rw [he1]
    exact hd1
  · rw [he2]
    exact hd2
  · rw [he3]
    exact hd3

/-- Witness for C8: identity curve codec on a one-member MultiPoint,
MultiLineString and MultiPolygon. -/
theorem multi_member_order_roundtrip_witness :
    encode_geometry (fun x y => ((x, y) : ℚ × ℚ)) (Geometry.multiPoint [⟨1, 2⟩]) =
      .ok (.multiPoint ([⟨1, 2⟩].map (encode_coord (fun x y => (x, y)))))
    ∧ encode_geometry (fun x y => ((x, y) : ℚ × ℚ)) (Geometry.multiLineString [[⟨1, 1⟩]]) =
      .ok (.multiLineString
        ([[⟨1, 1⟩]].map (fun ls => ls.map (encode_coord (fun x y => (x, y))))))
    ∧ encode_geometry (fun x y => ((x, y) : ℚ × ℚ))
        (Geometry.multiPolygon [⟨[⟨0, 0⟩], []⟩]) =
      .ok (.multiPolygon (([⟨[⟨0, 0⟩], []⟩] : List Polygon).map (fun p =>
        (p.exterior.map (encode_coord (fun x y => (x, y)))) ::
          p.interiors.map (fun ring => ring.map (encode_coord (fun x y => (x, y)))))))
    ∧ (encode_geometry (fun x y => ((x, y) : ℚ × ℚ)) (Geometry.multiPoint [⟨1, 2⟩])).bind
        (decode_geometry (fun p : ℚ × ℚ => p)) = .ok (.multiPoint [⟨1, 2⟩])
    ∧ (encode_geometry (fun x y => ((x, y) : ℚ × ℚ))
        (Geometry.multiLineString [[⟨1, 1⟩]])).bind
        (decode_geometry (fun p : ℚ × ℚ => p)) = .ok (.multiLineString [[⟨1, 1⟩]])
    ∧ (encode_geometry (fun x y => ((x, y) : ℚ × ℚ))
        (Geometry.multiPolygon [⟨[⟨0, 0⟩], []⟩])).bind
        (decode_geometry (fun p : ℚ × ℚ => p)) = .ok (.multiPolygon [⟨[⟨0, 0⟩], []⟩]) :=
  multi_member_order_roundtrip (fun x y => (x, y)) (fun p => p) 0
    (fun x y => by constructor <;> simp) (by norm_num)
    [⟨1, 2⟩] [[⟨1, 1⟩]] [⟨[⟨0, 0⟩], []⟩]
    (by
      intro c hc
      rw [List.mem_singleton] at hc
      subst hc
      exact coord_prec7_of ⟨1, 2⟩ 10000000 20000000 (by norm_num [PRECISION])
        (by norm_num [PRECISION]))
    (by
      intro ls hls
      rw [List.mem_singleton] at hls
      subst hls
      intro c hc
      rw [List.mem_singleton] at hc
      subst hc
      exact coord_prec7_of ⟨1, 1⟩ 10000000 10000000 (by norm_num [PRECISION])
        (by norm_num [PRECISION]))
    (by
      intro p hp
      rw [List.mem_singleton] at hp
      subst hp
      refine ⟨?_, ?_⟩
      · intro c hc
        rw [List.mem_singleton] at hc
        subst hc
        exact coord_prec7_of ⟨0, 0⟩ 0 0 (by norm_num) (by norm_num)
      · intro r hr
        simp at hr)
    (by
      intro p hp
      rw [List.mem_singleton] at hp
      subst hp
      refine ⟨rfl, ?_⟩
      intro r hr
      simp at hr)

/-- C9: For every supported geometry `g` (with closed polygon rings, as for
every constructible geo-types polygon) and arbitrary-precision coordinates,
decoding the encoding succeeds and each coordinate of the result differs from
the corresponding coordinate of `g` by strictly less than `1e-6` per axis,
assuming the external curve inverse is accurate to within `δ` per axis with
`3600000000 * δ < 19` (so that the rescaled curve error plus the half-step
rounding error stays strictly below `1e-6`). -/
theorem bounded_precision_loss {H : Type} (xy2h : ℚ → ℚ → H) (h2xy : H → ℚ × ℚ) (δ : ℚ)
    (hcurve : ∀ x y, |(h2xy (xy2h x y)).1 - x| ≤ δ ∧ |(h2xy (xy2h x y)).2 - y| ≤ δ)
    (hδ : 3600000000 * δ < 19) (g : Geometry)
    (hsup : g.supported) (hclosed : g.rings_closed) :
    ∃ gd, (encode_geometry xy2h g).bind (decode_geometry h2xy) = .ok gd ∧
      geometry_approx (1/1000000) g gd := by
  have capprox := coord_approx_decode_encode xy2h h2xy δ hcurve hδ
  cases g with
  | point c =>
      refine ⟨.point (decode_coord h2xy (encode_coord xy2h c)), ?_, ?_⟩
      · show decode_geometry h2xy (make_point xy2h c) = _
        rw [make_point, decode_geometry_point]
      · exact capprox c
  | lineString l =>
      refine ⟨.lineString (l.map (fun c => decode_coord h2xy (encode_coord xy2h c))),
        ?_, ?_⟩
      · show decode_geometry h2xy (make_linestring xy2h l) = _
        rw [make_linestring, decode_geometry_lineString, List.map_map]
        rfl
      · exact forall2_map_self _ l _ (fun c _ => capprox c)
  | polygon p =>
      refine ⟨.polygon ⟨p.exterior.map (fun c => decode_coord h2xy (encode_coord xy2h c)),
        p.interiors.map (fun r =>
          r.map (fun c => decode_coord h2xy (encode_coord xy2h c)))⟩, ?_, ?_⟩
      · show decode_geometry h2xy (make_poly xy2h p) = _
        rw [make_poly_eq]
        exact poly_rings_decode xy2h h2xy p hclosed
      · exact ⟨forall2_map_self _ _ _ (fun c _ => capprox c),
          forall2_map_self _ _ _ (fun r _ =>
            forall2_map_self _ _ _ (fun c _ => capprox c))⟩
  | multiPoint pts =>
      refine ⟨.multiPoint (pts.map (fun c => decode_coord h2xy (encode_coord xy2h c))),
        ?_, ?_⟩
      · rw [encode_geometry_multiPoint]
        show decode_geometry h2xy (.multiPoint (pts.map (encode_coord xy2h))) = _
        rw [decode_geometry_multiPoint, List.map_map]
        rfl
      · exact forall2_map_self _ pts _ (fun c _ => capprox c)
  | multiLineString lss =>
      refine ⟨.multiLineString (lss.map (fun ls =>
        ls.map (fun c => decode_coord h2xy (encode_coord xy2h c)))), ?_, ?_⟩
      · rw [encode_geometry_multiLineString]
        show decode_geometry h2xy
          (.multiLineString (lss.map (fun ls => ls.map (encode_coord xy2h)))) = _
        rw [decode_geometry_multiLineString, List.map_map]
        rw [outcome_collect_ok_of_mem lss _ (fun ls =>
          ls.map (fun c => decode_coord h2xy (encode_coord xy2h c))) ?_]
        · rfl
        · intro ls _
          show Outcome.ok ((ls.map (encode_coord xy2h)).map (decode_coord h2xy)) = _
          rw [List.map_map]
          rfl
      · exact forall2_map_self _ lss _ (fun ls _ =>
          forall2_map_self _ ls _ (fun c _ => capprox c))
  | multiPolygon ps =>
      refine ⟨.multiPolygon (ps.map (fun p =>
        ⟨p.exterior.map (fun c => decode_coord h2xy (encode_coord xy2h c)),
          p.interiors.map (fun r =>
            r.map (fun c => decode_coord h2xy (encode_coord xy2h c)))⟩)), ?_, ?_⟩
      · rw [encode_geometry_multiPolygon]
        show decode_geometry h2xy (.multiPolygon (ps.map (fun p =>
          (p.exterior.map (encode_coord xy2h)) ::
            p.interiors.map (fun ring => ring.map (encode_coord xy2h))))) = _
        rw [decode_geometry_multiPolygon, List.map_map]
        rw [outcome_collect_ok_of_mem ps _ (fun p =>
          Polygon.mk (p.exterior.map (fun c => decode_coord h2xy (encode_coord xy2h c)))
            (p.interiors.map (fun r =>
              r.map (fun c => decode_coord h2xy (encode_coord xy2h c))))) ?_]
        · rfl
        · intro p hp
          show (decode_geometry h2xy (.polygon ((p.exterior.map (encode_coord xy2h)) ::
            p.interiors.map (fun ring => ring.map (encode_coord xy2h))))).bind
              (fun g => Outcome.unwrapResult g.tryIntoPolygon) = _
          rw [poly_rings_decode xy2h h2xy p (hclosed p hp)]
          rfl
      · exact forall2_map_self _ ps _ (fun p _ =>
          ⟨forall2_map_self _ _ _ (fun c _ => capprox c),
            forall2_map_self _ _ _ (fun r _ =>
              forall2_map_self _ _ _ (fun c _ => capprox c))⟩)
  | geometryCollection gs => exact hsup.elim

/-- Witness for C9: identity curve codec at the arbitrary-precision point
(1/3, 1/3). -/
theorem bounded_precision_loss_witness :
    ∃ gd, (encode_geometry (fun x y => ((x, y) : ℚ × ℚ))
        (Geometry.point ⟨1/3, 1/3⟩)).bind (decode_geometry (fun p : ℚ × ℚ => p)) =
          .ok gd ∧
      geometry_approx (1/1000000) (Geometry.point ⟨1/3, 1/3⟩) gd :=
  bounded_precision_loss (fun x y => (x, y)) (fun p => p) 0
    (fun x y => by constructor <;> simp) (by norm_num) (Geometry.point ⟨1/3, 1/3⟩)
    trivial trivial

/-- C10: `decode_geometry` is total: for every `HilbertGeometry` value,
including hand-constructed ones, it returns a geometry without panicking; in
particular the `try_into().unwrap()` downcasts in the `MultiLineString` and
`MultiPolygon` branches never fail, because a member decoded through the
`LineString` / `Polygon` variant always produces exactly that variant. -/
theorem decode_geometry_total {H : Type} (h2xy : H → ℚ × ℚ) (hg : HilbertGeometry H) :
    ∃ g, decode_geometry h2xy hg = .ok g := by
  cases hg with
  | point hp => exact ⟨_, decode_geometry_point h2xy hp⟩
  | lineString hps => exact ⟨_, decode_geometry_lineString h2xy hps⟩
  | polygon rings => exact ⟨_, decode_geometry_polygon_eq h2xy rings⟩
  | multiPoint hps => exact ⟨_, decode_geometry_multiPoint h2xy hps⟩
  | multiLineString hpss =>
      refine ⟨.multiLineString (hpss.map (fun ls => ls.map (decode_coord h2xy))), ?_⟩
      rw [decode_geometry_multiLineString,
        outcome_collect_ok_of_mem hpss _ _ (fun ls _ => rfl)]
      rfl
  | multiPolygon hpsss =>
      refine ⟨.multiPolygon (hpsss.map (decode_poly_rings h2xy)), ?_⟩
      rw [decode_geometry_multiPolygon,
        outcome_collect_ok_of_mem hpsss _ (decode_poly_rings h2xy) ?_]
      · rfl
      · intro rings _
        rw [decode_geometry_polygon_eq]
        rfl

end HilbertGeo
